import Mathlib

-- Verification of the query translation and multi-query execution engine in
-- djangae/db/backends/appengine/commands.py (class SelectCommand and its
-- execute/_do_fetch pipeline).  Python values, Django where-trees and the
-- datastore query dictionaries are embedded shallowly; the mutable fields of
-- SelectCommand set during parsing become an explicit ParseState threaded
-- through the recursion, exactly following the source's control flow.

namespace Djangae

deriving instance DecidableEq for Except

/-- A scalar Python value as it appears in lookup filters. -/
inductive Scalar where
  | int : Int → Scalar
  | str : String → Scalar
  | null : Scalar
deriving DecidableEq

/-- A Python value as it appears in lookup filters: a scalar, or a list/tuple
of scalars (one level of nesting suffices: membership-in-set lookups carry
flat value lists). -/
inductive Val where
  | scal : Scalar → Val
  | listV : List Scalar → Val
deriving DecidableEq

/-- An integer value. -/
abbrev Val.intV (n : Int) : Val := .scal (.int n)

/-- A string value. -/
abbrev Val.strV (s : String) : Val := .scal (.str s)

/-- Python's `None`. -/
abbrev Val.nullV : Val := .scal .null

/-- A normalized predicate / datastore filter entry `(column, operator, value)`.
During parsing the operator is a Django lookup name ("exact", "gt", ...,
"gt_and_lt"); after compilation it is a datastore symbol ("=", "<", ...). -/
abbrev Pred := String × String × Val

/-- A node of Django's where tree: either a leaf constraint tuple
`(constraint, lookup, annotation, value)` — we record the constraint's column,
whether `constraint.field.primary_key` holds, the lookup and the value — or a
connector node with a `negated` flag over children.  `prep_lookup_value` is an
external value-preparation hook of the connection's ops and is modelled as the
identity. -/
inductive WhereNode where
  | leaf (col : String) (isPk : Bool) (op : String) (value : Val)
  | node (connector : String) (negated : Bool) (children : List WhereNode)

/-- Errors raised by `parse_where_and_check_projection`.  The source raises a
`DatabaseError` for a non-AND connector (the name is in fact not imported in
the module, so Python would raise a `NameError` there; either way parsing
aborts) and `RuntimeError`s for the two other cases. -/
inductive ParseErr where
  | unsupportedConnector
  | multipleInequalityFilters
  | unsupportedNegatedOperator (op : String)
deriving DecidableEq

/-- The mutable SelectCommand fields touched by
`parse_where_and_check_projection`, threaded explicitly. -/
structure ParseState where
  projection : Option (List String)
  includedPks : List Val
  excludedPks : List Val
  hasInequalityFilter : Bool
  queryCanNeverReturnResults : Bool
deriving DecidableEq

/-- Python truthiness of `self.projection` (either `None` or a list). -/
def projTruthy : Option (List String) → Bool
  | none => false
  | some l => !l.isEmpty

/-- Lines 133-139: disable the projection when an equality-style lookup
targets a projected column (`if self.projection and constraint.col in
self.projection: if op in ("exact", "in", "isnull"): self.projection = None`). -/
def projStep (st : ParseState) (col : String) (op : String) : ParseState :=
  if projTruthy st.projection = true ∧ col ∈ st.projection.getD [] ∧
      op ∈ (["exact", "in", "isnull"] : List String) then
    { st with projection := none }
  else st

/-- Lines 126-171: processing of one leaf child tuple of the where tree. -/
def parseLeaf (st0 : ParseState) (negated : Bool) (col : String) (isPk : Bool)
    (op : String) (v : Val) : ParseState × Except ParseErr (List Pred) :=
  let st := projStep st0 col op
  if negated then
    -- lines 142-155
    let st1 := if (op = "exact" ∨ op = "in") ∧ isPk = true then
        { st with excludedPks := st.excludedPks ++ [v] }
      else st
    if op = "exact" then
      if st1.hasInequalityFilter then (st1, .error .multipleInequalityFilters)
      else ({ st1 with hasInequalityFilter := true }, .ok [(col, "gt_and_lt", v)])
    else (st1, .error (.unsupportedNegatedOperator op))
  else
    -- lines 156-171
    let st1 :=
      if isPk = true then
        if (v = Val.nullV ∧ op = "exact") ∨ op = "isnull" then
          { st with queryCanNeverReturnResults := true }
        else if op = "exact" ∨ op = "in" then
          match v with
          | .listV vs => { st with includedPks := st.includedPks ++ vs.map Val.scal }
          | w => { st with includedPks := st.includedPks ++ [w] }
        else st
      else st
    (st1, .ok [(col, op, v)])

mutual

/-- Lines 116-175: `parse_where_and_check_projection(where, negated)`.  On an
exception the state already mutated is kept alongside the error (Python's
`self` keeps its mutations when the raise propagates). -/
def parseWhere (st : ParseState) (negated : Bool) :
    WhereNode → ParseState × Except ParseErr (List Pred)
  | .leaf col isPk op v => parseLeaf st negated col isPk op v
  | .node connector nneg children =>
    let neg2 := if nneg then !negated else negated
    if neg2 = false ∧ connector ≠ "AND" then (st, .error .unsupportedConnector)
    else parseChildren st neg2 children

/-- The `for child in where.children` loop: tuples are handled inline
(`parseLeaf`, via the leaf case of `parseWhere`), nested nodes recursively,
accumulating the flat `result` list. -/
def parseChildren (st : ParseState) (negated : Bool) :
    List WhereNode → ParseState × Except ParseErr (List Pred)
  | [] => (st, .ok [])
  | c :: rest =>
    match parseWhere st negated c with
    | (st1, .error e) => (st1, .error e)
    | (st1, .ok ps) =>
      match parseChildren st1 negated rest with
      | (st2, .error e) => (st2, .error e)
      | (st2, .ok ps2) => (st2, .ok (ps ++ ps2))

end

/-- The slice of Django model metadata used by a direct parent model:
`_meta.db_table`, `_meta.abstract`, and whether `_meta.parents` is nonempty. -/
structure ParentModel where
  dbTable : String
  abstract : Bool
  hasParents : Bool
deriving DecidableEq

/-- The slice of Django model metadata SelectCommand reads: `str(model)` (used
in the missing-index message), `_meta.db_table`, `_meta.pk.column`,
`_meta.fields` with their `db_type(connection)`, `_meta.parents`,
`_meta.get_parent_list()`, `_meta.proxy` and `_meta.ordering`.
`uniqueCombinations` is modelled from the spec: the declared
unique-field-combinations that `get_uniques_from_model` (referenced in
`_do_fetch` but defined nowhere in the module) is meant to return. -/
structure Model where
  name : String
  dbTable : String
  pkCol : String
  fields : List (String × String)
  parents : List ParentModel
  parentList : List ParentModel
  proxy : Bool
  metaOrdering : List String
  uniqueCombinations : List (List String)
deriving DecidableEq

/-- Lines 34-39: `get_field_from_column`, a linear scan of `_meta.fields`. -/
def get_field_from_column (m : Model) (column : String) : Option (String × String) :=
  m.fields.find? (fun f => f.1 = column)

/-- `f.db_type(connection)` of the field found for `column`.  The source
asserts the field exists; theorems that depend on the type carry a
well-formedness hypothesis instead of modelling the assertion failure. -/
def dbTypeOf (m : Model) (column : String) : String :=
  ((get_field_from_column m column).map (fun f => f.2)).getD ""

/-- Lines 49-61: the `queried_fields` computation.  `select` stands for the
columns extracted from `query.select` (an external Django structure). -/
def computeQueriedFields (m : Model) (keysOnly allFields : Bool)
    (select : List String) : List String :=
  let qf := if keysOnly then [m.pkCol] else if allFields then [] else select
  if qf.isEmpty then m.fields.map (fun f => f.1) else qf

/-- Lines 78-96: the projection-candidate loop.  `none` models the
`projection_fields = []; break` reset taken when a text/bytes column is hit
(it discards everything accumulated so far, and later fields are not
inspected). -/
def projectionFieldsLoop (m : Model) : List String → Option (List String)
  | [] => some []
  | f :: rest =>
    if f = m.pkCol then projectionFieldsLoop m rest
    else if dbTypeOf m f = "bytes" ∨ dbTypeOf m f = "text" then none
    else (projectionFieldsLoop m rest).map (fun l => f :: l)

/-- Lines 76-100: `self.projection = list(set(projection_fields)) or None`,
then reset to `None` when `opts.parents` is nonempty.  `List.dedup` models
`list(set(...))` (the Python set's iteration order is arbitrary; only the
column set matters downstream). -/
def initialProjection (m : Model) (allFields : Bool)
    (queriedFields : List String) : Option (List String) :=
  let pf := if allFields then [] else (projectionFieldsLoop m queriedFields).getD []
  let proj := if pf.dedup.isEmpty then none else some pf.dedup
  if m.parents.isEmpty then proj else none

/-- The ParseState at the start of line 102's `parse_where_and_check_projection`
call: the projection computed above, empty key sets and cleared flags
(lines 68-73). -/
def initState (m : Model) (allFields : Bool) (queriedFields : List String) :
    ParseState where
  projection := initialProjection m allFields queriedFields
  includedPks := []
  excludedPks := []
  hasInequalityFilter := false
  queryCanNeverReturnResults := false

/-- The SelectCommand fields as they stand when `__init__` returns. -/
structure SelectCommand where
  model : Model
  pkCol : String
  queriedFields : List String
  keysOnly : Bool
  projection : Option (List String)
  includedPks : List Val
  excludedPks : List Val
  hasInequalityFilter : Bool
  queryCanNeverReturnResults : Bool
  allFilters : List Pred
  whereList : List Pred
  ordering : List String
deriving DecidableEq

/-- Lines 42-114: `SelectCommand.__init__`.  `defaultOrdering`, `orderBy` and
`select` stand for `query.default_ordering`, `query.order_by` and the columns
of `query.select`.  Note line 71 initializes `self.all_filters = []` and no
statement in the module ever appends to it. -/
def initSelect (m : Model) (keysOnly allFields : Bool) (select : List String)
    (defaultOrdering : Bool) (orderBy : List String) (tree : WhereNode) :
    Except ParseErr SelectCommand :=
  let ordering := if defaultOrdering = false then orderBy
    else if orderBy.isEmpty then m.metaOrdering else orderBy
  let qf := computeQueriedFields m keysOnly allFields select
  match parseWhere (initState m allFields qf) false tree with
  | (_, .error e) => .error e
  | (st, .ok preds) =>
    -- lines 104-114: swap the pk column for __key__ in queried_fields and
    -- recompute keys_only (line 67 reset it to False unconditionally)
    let (qf2, keysOnly2) :=
      match qf.findIdx? (fun f => f = m.pkCol) with
      | some i => (qf.set i "__key__", qf.length == 1)
      | none => (qf, false)
    .ok { model := m, pkCol := m.pkCol, queriedFields := qf2,
          keysOnly := keysOnly2, projection := st.projection,
          includedPks := st.includedPks, excludedPks := st.excludedPks,
          hasInequalityFilter := st.hasInequalityFilter,
          queryCanNeverReturnResults := st.queryCanNeverReturnResults,
          allFilters := [], whereList := preds, ordering := ordering }

/-- Lines 15-30: `OPERATORS_MAP.get(op)`.  The keys mapped to `None`
(`isnull`, `in`, `startswith`, `range`, `year`, `gt_and_lt`, `iexact`) and any
unknown key both yield `None` from `.get`. -/
def OPERATORS_MAP : String → Option String
  | "exact" => some "="
  | "gt" => some ">"
  | "gte" => some ">="
  | "lt" => some "<"
  | "lte" => some "<="
  | _ => none

/-- Modelled from the spec: the special-index registry of `djangae.indexing`
(`REQUIRES_SPECIAL_INDEXES`, `special_indexes_for_column`,
`add_special_index`, and the indexer objects), which is not part of the
translated source.  `requires` is membership in `REQUIRES_SPECIAL_INDEXES`;
`specialFor` is `special_indexes_for_column(model, column)` as it stands after
the `add_special_index` attempt; `indexedColumnName`/`prepValueForQuery` are
the indexer's column resolution and value transform for an operator. -/
structure Registry where
  requires : String → Bool
  specialFor : String → String → List String
  indexedColumnName : String → String → String
  prepValueForQuery : String → Val → Val

/-- A datastore filter assignment `query["column op"] = value`: dictionary
semantics, so an assignment with the same `(column, op)` key replaces the
previous entry. -/
def setF (fs : List Pred) (c o : String) (v : Val) : List Pred :=
  (fs.filter (fun e => decide (¬(e.1 = c ∧ e.2.1 = o)))) ++ [(c, o, v)]

/-- `datastore.Query` as the where loop sees it: a kind, an optional
projection, and the filter dictionary. -/
structure QuerySpec where
  kind : String
  projection : Option (List String)
  filters : List Pred
deriving DecidableEq

/-- Errors raised inside `SelectCommand.execute`'s where loop: the
missing-index `RuntimeError` (its message names the model, the column and the
operator) and the `NotImplementedError` for unknown operators. -/
inductive ExecErr where
  | missingIndex (model column op : String)
  | notImplemented (op : String)
deriving DecidableEq

/-- Line 206-207: the primary-key column is rewritten to `__key__`. -/
def mapCol (m : Model) (c : String) : String :=
  if c = m.pkCol then "__key__" else c

/-- The accumulator of the `for column, op, value in self.where` loop: the
filters assigned into `query` so far and `combined_filters`. -/
structure CompileAcc where
  filters : List Pred
  combined : List Pred
deriving DecidableEq

/-- Lines 205-233: one iteration of the where loop of `execute`. -/
def compileStep (m : Model) (reg : Registry) (acc : CompileAcc) (p : Pred) :
    Except ExecErr CompileAcc :=
  let col := mapCol m p.1
  let op := p.2.1
  let v := p.2.2
  match OPERATORS_MAP op with
  | some fop => .ok ⟨setF acc.filters col fop v, acc.combined⟩
  | none =>
    if reg.requires op then
      if op ∈ reg.specialFor m.name col then
        .ok ⟨setF acc.filters (reg.indexedColumnName op col) "="
              (reg.prepValueForQuery op v), acc.combined⟩
      else .error (.missingIndex m.name col op)
    else if op = "in" then .ok ⟨acc.filters, acc.combined ++ [(col, "in", v)]⟩
    else if op = "gt_and_lt" then
      .ok ⟨acc.filters, acc.combined ++ [(col, "gt_and_lt", v)]⟩
    else if op = "isnull" then .ok ⟨setF acc.filters col "=" Val.nullV, acc.combined⟩
    else .error (.notImplemented op)

/-- Lines 184-192: `[x for x in self.model._meta.parents if not
x._meta.abstract]`. -/
def concreteParents (m : Model) : List ParentModel :=
  m.parents.filter (fun p => !p.abstract)

/-- Lines 184-192: the `inheritance_root` table.  When there are concrete
parents, every parent in `get_parent_list()` without parents of its own
overrides the root (the last such parent wins). -/
def inheritanceRootTable (m : Model) : String :=
  if (concreteParents m).isEmpty then m.dbTable
  else m.parentList.foldl
    (fun acc p => if p.hasParents = false then p.dbTable else acc) m.dbTable

/-- Lines 199-201: the `class =` filter added when the model has concrete
parents and is not a proxy. -/
def baseFilters0 (m : Model) : List Pred :=
  if (concreteParents m).isEmpty = false ∧ m.proxy = false then
    setF [] "class" "=" (Val.strV m.dbTable)
  else []

/-- Lines 236-242: the ordering loop.  `true` in the second component is
`datastore.Query.DESCENDING` (leading dash); `lstrip("-")` drops all leading
dashes; the pk column becomes `__key__`. -/
def computeOrdering (m : Model) (ord : List String) : List (String × Bool) :=
  ord.map (fun o =>
    let desc := o.startsWith "-"
    let o2 := o.dropWhile (fun ch => ch = '-')
    ((if o2 = m.pkCol then "__key__" else o2), desc))

/-- `for val in value` over a membership-lookup value: the normalizer prepares
those as flat lists. -/
def iterVals : Val → List Val
  | .listV vs => vs.map Val.scal
  | _ => []

/-- Lines 250-262: the alternatives a single combined filter produces from one
existing query.  Each clone is a fresh `datastore.Query(self.model._meta.db_table)`
(kind is the model's own table, no projection argument) updated with the
existing query's filter dictionary plus the instantiated filter; for
`gt_and_lt` the clones use `<` then `>`. -/
def expandAlternatives (mTable : String) (q : QuerySpec) (c : Pred) :
    List QuerySpec :=
  if c.2.1 = "in" then
    (iterVals c.2.2).map (fun v => ⟨mTable, none, setF q.filters c.1 "=" v⟩)
  else if c.2.1 = "gt_and_lt" then
    (["<", ">"] : List String).map (fun o => ⟨mTable, none, setF q.filters c.1 o c.2.2⟩)
  else []

/-- Lines 246-263: the nested expansion loops — for each combined filter,
replace the working query set by all its clones. -/
def expandCombined (mTable : String) :
    List QuerySpec → List Pred → List QuerySpec
  | qs, [] => qs
  | qs, c :: rest =>
    expandCombined mTable (qs.flatMap (fun q => expandAlternatives mTable q c)) rest

/-- What `execute` leaves in `self.query` (plus the early empty-result
return): nothing, a single `datastore.Query` with its ordering applied, or a
`datastore.MultiQuery` over the expanded set with the ordering. -/
inductive ExecOutcome where
  | empty
  | single (q : QuerySpec) (ordering : List (String × Bool))
  | multi (qs : List QuerySpec) (ordering : List (String × Bool))
deriving DecidableEq

/-- Lines 177-274: `SelectCommand.execute` up to the `_do_fetch` call — the
early `query_can_never_return_results` return, the base query against the
inheritance root's table with the projection and the `class` filter, the where
loop, the ordering, and the multi-query expansion. -/
def executeCompile (cmd : SelectCommand) (reg : Registry) :
    Except ExecErr ExecOutcome :=
  if cmd.queryCanNeverReturnResults then .ok .empty
  else
    let ordering := computeOrdering cmd.model cmd.ordering
    match cmd.whereList.foldlM (compileStep cmd.model reg)
        ⟨baseFilters0 cmd.model, []⟩ with
    | .error e => .error e
    | .ok acc =>
      let q0 : QuerySpec :=
        ⟨inheritanceRootTable cmd.model, cmd.projection, acc.filters⟩
      if acc.combined.isEmpty then .ok (.single q0 ordering)
      else .ok (.multi (expandCombined cmd.model.dbTable [q0] acc.combined) ordering)

/-- A datastore entity, as a property list. -/
abbrev Entity := List (String × Val)

/-- The backing store, injected: `Run`/`Count` on a single query (one store
roundtrip either way; the count aggregate is not distinguished by any claim)
and on a `MultiQuery`. -/
structure StoreModel where
  runSingle : QuerySpec → List (String × Bool) → List Entity
  runMultiQ : List QuerySpec → List (String × Bool) → List Entity

/-- The observable outcome of the fetch phase: the results together with how
many cache lookups and store calls were made — or the `NameError` Python
raises if the cache branch were ever entered (see `doFetch`). -/
inductive FetchOutcome where
  | fetched (results : List Entity) (cacheLookups storeCalls : Nat)
  | nameError
deriving DecidableEq

/-- Lines 177-180 and 276-316: the early empty return of `execute`
(`self.results = []`, no fetch), and `_do_fetch`/`_run_query`.  For a
MultiQuery, one store call.  For a single query the cache branch is guarded by
`if self.all_filters and self.model:`; when `all_filters` is empty the store
is called once with zero cache lookups.  Were `all_filters` nonempty, the
branch would evaluate `get_uniques_from_model`, `generate_unique_key` and
`get_entity_from_cache` — none of which is defined or imported in the module —
so Python would raise a `NameError` before any cache read. -/
def doFetch (allFilters : List Pred) (outcome : ExecOutcome)
    (store : StoreModel) : FetchOutcome :=
  match outcome with
  | .empty => .fetched [] 0 0
  | .multi qs ord => .fetched (store.runMultiQ qs ord) 0 1
  | .single q ord =>
    if allFilters.isEmpty then .fetched (store.runSingle q ord) 0 1
    else .nameError

/-- Datastore value comparison, on comparable scalars of equal type (the
claims' semantic statements only concern such values). -/
def valLt : Val → Val → Bool
  | .scal (.int a), .scal (.int b) => decide (a < b)
  | .scal (.str a), .scal (.str b) => decide (a < b)
  | _, _ => false

/-- Whether an entity property assignment satisfies one datastore filter. -/
def filterSat (e : String → Val) (f : Pred) : Bool :=
  match f.2.1 with
  | "=" => decide (e f.1 = f.2.2)
  | "<" => valLt (e f.1) f.2.2
  | ">" => valLt f.2.2 (e f.1)
  | "<=" => valLt (e f.1) f.2.2 || decide (e f.1 = f.2.2)
  | ">=" => valLt f.2.2 (e f.1) || decide (e f.1 = f.2.2)
  | _ => false

/-- Whether an entity satisfies every filter of a query. -/
def querySat (e : String → Val) (q : QuerySpec) : Bool :=
  q.filters.all (filterSat e)

mutual

/-- The `(column, lookup)` pairs of every leaf of a where tree. -/
def leavesCO : WhereNode → List (String × String)
  | .leaf c _ op _ => [(c, op)]
  | .node _ _ children => leavesCOList children

/-- `leavesCO` over a child list. -/
def leavesCOList : List WhereNode → List (String × String)
  | [] => []
  | t :: ts => leavesCO t ++ leavesCOList ts

end

/-- The condition under which lines 133-139 disable the projection for a leaf
on column `c` with lookup `op`, relative to a projection state `p`. -/
def dropCond (p : Option (List String)) (c op : String) : Prop :=
  projTruthy p = true ∧ c ∈ p.getD [] ∧ op ∈ (["exact", "in", "isnull"] : List String)

instance (p : Option (List String)) (c op : String) : Decidable (dropCond p c op) := by
  unfold dropCond; infer_instance

/-- The projection candidate columns: the queried fields minus the primary
key, or nothing at all when `all_fields` skipped the candidate loop. -/
def candidateCols (m : Model) (allFields : Bool) (qf : List String) : List String :=
  if allFields then [] else qf.filter (fun f => !decide (f = m.pkCol))

/-- The filters accumulated by a run of store-native equality predicates in
the where loop of `execute`. -/
def eqFold (m : Model) (fs : List Pred) (l : List Pred) : List Pred :=
  l.foldl (fun fs p => setF fs (mapCol m p.1) "=" p.2.2) fs

/-- The state/projection invariants of `parse_where_and_check_projection`,
for one where node: the projection is only ever cleared, it is cleared iff an
equality-style lookup hits a projected column, and the always-empty flag is
never reset. -/
def ParseInv (t : WhereNode) : Prop :=
  ∀ st neg,
    ((parseWhere st neg t).1.projection = st.projection ∨
      (parseWhere st neg t).1.projection = none) ∧
    ((parseWhere st neg t).1.projection = none →
      st.projection = none ∨ ∃ co ∈ leavesCO t, dropCond st.projection co.1 co.2) ∧
    (∀ ps, (parseWhere st neg t).2 = .ok ps →
      ∀ co ∈ leavesCO t, dropCond st.projection co.1 co.2 →
        (parseWhere st neg t).1.projection = none) ∧
    (st.queryCanNeverReturnResults = true →
      (parseWhere st neg t).1.queryCanNeverReturnResults = true)

/-- `ParseInv` for the child-list loop. -/
def ChildrenInv (ts : List WhereNode) : Prop :=
  ∀ st neg,
    ((parseChildren st neg ts).1.projection = st.projection ∨
      (parseChildren st neg ts).1.projection = none) ∧
    ((parseChildren st neg ts).1.projection = none →
      st.projection = none ∨ ∃ co ∈ leavesCOList ts, dropCond st.projection co.1 co.2) ∧
    (∀ ps, (parseChildren st neg ts).2 = .ok ps →
      ∀ co ∈ leavesCOList ts, dropCond st.projection co.1 co.2 →
        (parseChildren st neg ts).1.projection = none) ∧
    (st.queryCanNeverReturnResults = true →
      (parseChildren st neg ts).1.queryCanNeverReturnResults = true)

-- Concrete fixtures used to evaluate the theorems on closed inputs.

/-- A fresh parse state with no projection. -/
def st0 : ParseState := ⟨none, [], [], false, false⟩

/-- A model like `User(id pk, email unique, name)` from the spec's example. -/
def mUser : Model where
  name := "User"
  dbTable := "app_user"
  pkCol := "id"
  fields := [("id", "key"), ("email", "string"), ("name", "string")]
  parents := []
  parentList := []
  proxy := false
  metaOrdering := []
  uniqueCombinations := [["email"]]

/-- A model with a concrete (non-abstract) parent whose table differs from the
model's own. -/
def mChild : Model where
  name := "Child"
  dbTable := "app_child"
  pkCol := "id"
  fields := [("id", "key"), ("extra", "string")]
  parents := [⟨"app_parent", false, false⟩]
  parentList := [⟨"app_parent", false, false⟩]
  proxy := false
  metaOrdering := []
  uniqueCombinations := []

/-- A registry with no special-index operators registered. -/
def reg0 : Registry := ⟨fun _ => false, fun _ _ => [], fun _ c => c, fun _ v => v⟩

/-- A registry knowing `iexact` on every column, resolving to a prefixed
column and a marker transform. -/
def regIdx : Registry :=
  ⟨fun o => o == "iexact", fun _ _ => ["iexact"],
   fun o c => o ++ "_" ++ c, fun _ _ => Val.strV "lowered"⟩

/-- A registry that requires `iexact` but has no index registered for it. -/
def regMissing : Registry :=
  ⟨fun o => o == "iexact", fun _ _ => [], fun o c => o ++ "_" ++ c, fun _ v => v⟩

/-- A store returning no entities. -/
def store0 : StoreModel := ⟨fun _ _ => [], fun _ _ => []⟩

/-- A placeholder SelectCommand for total projections out of `Except`. -/
def dCmd : SelectCommand :=
  ⟨mUser, "id", [], false, none, [], [], false, false, [], [], []⟩

/-- A placeholder outcome. -/
def dOut : ExecOutcome := .empty

/-- A placeholder query. -/
def dQS : QuerySpec := ⟨"", none, []⟩

/-- Total projection out of `Except`. -/
def okOr {ε α : Type} (r : Except ε α) (d : α) : α :=
  match r with
  | .ok a => a
  | .error _ => d

/-- The member list of a multi outcome. -/
def qsOf : ExecOutcome → List QuerySpec
  | .multi qs _ => qs
  | _ => []

/-- The query of a single outcome. -/
def qOf : ExecOutcome → QuerySpec
  | .single q _ => q
  | _ => dQS

/-- The ordering of a single outcome. -/
def ordOf : ExecOutcome → List (String × Bool)
  | .single _ o => o
  | _ => []

-- Lemmas about the projection bookkeeping of single steps.

theorem projStep_projection_cases (st : ParseState) (c op : String) :
    (projStep st c op).projection = st.projection ∨
      (projStep st c op).projection = none := by
  unfold projStep; split
  · exact Or.inr rfl
  · exact Or.inl rfl

theorem projStep_projection_none_iff (st : ParseState) (c op : String) :
    (projStep st c op).projection = none ↔
      st.projection = none ∨ dropCond st.projection c op := by
  unfold projStep dropCond
  split
  · rename_i h
    simp only [true_iff]
    exact Or.inr h
  · rename_i h
    constructor
    · exact fun hn => Or.inl hn
    · rintro (hn | hc)
      · exact hn
      · exact absurd hc h

@[simp] theorem projStep_includedPks (st : ParseState) (c op : String) :
    (projStep st c op).includedPks = st.includedPks := by
  unfold projStep; split <;> rfl

@[simp] theorem projStep_excludedPks (st : ParseState) (c op : String) :
    (projStep st c op).excludedPks = st.excludedPks := by
  unfold projStep; split <;> rfl

@[simp] theorem projStep_hasInequalityFilter (st : ParseState) (c op : String) :
    (projStep st c op).hasInequalityFilter = st.hasInequalityFilter := by
  unfold projStep; split <;> rfl

@[simp] theorem projStep_queryCanNeverReturnResults (st : ParseState) (c op : String) :
    (projStep st c op).queryCanNeverReturnResults = st.queryCanNeverReturnResults := by
  unfold projStep; split <;> rfl

theorem parseLeaf_projection_cases (st : ParseState) (neg : Bool)
    (c : String) (pk : Bool) (op : String) (v : Val) :
    (parseLeaf st neg c pk op v).1.projection = st.projection ∨
      (parseLeaf st neg c pk op v).1.projection = none := by
  have hp := projStep_projection_cases st c op
  unfold parseLeaf
  repeat' split
  all_goals
    simpa [apply_ite (fun p : ParseState × Except ParseErr (List Pred) =>
      p.1.projection)] using hp

theorem parseLeaf_projection_none_iff (st : ParseState) (neg : Bool)
    (c : String) (pk : Bool) (op : String) (v : Val) :
    (parseLeaf st neg c pk op v).1.projection = none ↔
      st.projection = none ∨ dropCond st.projection c op := by
  have hp := projStep_projection_none_iff st c op
  unfold parseLeaf
  repeat' split
  all_goals
    simpa [apply_ite (fun p : ParseState × Except ParseErr (List Pred) =>
      p.1.projection)] using hp

theorem parseLeaf_que_mono (st : ParseState) (neg : Bool)
    (c : String) (pk : Bool) (op : String) (v : Val)
    (h : st.queryCanNeverReturnResults = true) :
    (parseLeaf st neg c pk op v).1.queryCanNeverReturnResults = true := by
  unfold parseLeaf
  repeat' split
  all_goals
    simp [apply_ite (fun p : ParseState × Except ParseErr (List Pred) =>
      p.1.queryCanNeverReturnResults), h]

theorem parseInv_leaf (c : String) (pk : Bool) (op : String) (v : Val) :
    ParseInv (.leaf c pk op v) := by
  intro st neg
  refine ⟨?_, ?_, ?_, ?_⟩
  · simpa [parseWhere] using parseLeaf_projection_cases st neg c pk op v
  · intro hnone
    have h := (parseLeaf_projection_none_iff st neg c pk op v).1
      (by simpa [parseWhere] using hnone)
    rcases h with h | h
    · exact Or.inl h
    · exact Or.inr ⟨(c, op), by simp [leavesCO], h⟩
  · intro ps _ co hco hdrop
    simp only [leavesCO, List.mem_singleton] at hco
    subst hco
    show (parseWhere st neg (.leaf c pk op v)).1.projection = none
    simp only [parseWhere]
    exact (parseLeaf_projection_none_iff st neg c pk op v).2 (Or.inr hdrop)
  · intro h
    simpa [parseWhere] using parseLeaf_que_mono st neg c pk op v h

theorem childrenInv_of : ∀ ts : List WhereNode,
    (∀ t ∈ ts, ParseInv t) → ChildrenInv ts := by
  intro ts
  induction ts with
  | nil =>
    intro _ st neg
    refine ⟨Or.inl rfl, fun h => Or.inl h, ?_, fun h => h⟩
    intro ps _ co hco _
    simp [leavesCOList] at hco
  | cons c rest ih =>
    intro h st neg
    have hc := h c (by simp)
    have hrest := ih (fun t ht => h t (by simp [ht]))
    cases hw : parseWhere st neg c with
    | mk st1 r1 =>
      have hc1 := hc st neg
      rw [hw] at hc1
      cases r1 with
      | error e =>
        refine ⟨?_, ?_, ?_, ?_⟩ <;>
          simp only [parseChildren, hw, leavesCOList]
        · exact hc1.1
        · intro hnone
          rcases hc1.2.1 hnone with hn | ⟨co, hco, hd⟩
          · exact Or.inl hn
          · exact Or.inr ⟨co, List.mem_append_left _ hco, hd⟩
        · intro ps hps
          exact absurd hps (by simp)
        · exact hc1.2.2.2
      | ok ps =>
        have hr1 := hrest st1 neg
        cases hr : parseChildren st1 neg rest with
        | mk st2 r2 =>
          rw [hr] at hr1
          have hcases2 : st2.projection = st.projection ∨ st2.projection = none := by
            rcases hr1.1 with h2 | h2
            · rw [h2]
              exact hc1.1
            · exact Or.inr h2
          have hnone2 : st2.projection = none →
              st.projection = none ∨
                ∃ co ∈ leavesCO c ++ leavesCOList rest, dropCond st.projection co.1 co.2 := by
            intro hnone
            rcases hr1.2.1 hnone with hn1 | ⟨co, hco, hd⟩
            · rcases hc1.2.1 hn1 with hn | ⟨co, hco, hd⟩
              · exact Or.inl hn
              · exact Or.inr ⟨co, List.mem_append_left _ hco, hd⟩
            · rcases hc1.1 with he | he
              · rw [he] at hd
                exact Or.inr ⟨co, List.mem_append_right _ hco, hd⟩
              · rcases hc1.2.1 he with hn | ⟨co2, hco2, hd2⟩
                · exact Or.inl hn
                · exact Or.inr ⟨co2, List.mem_append_left _ hco2, hd2⟩
          have hque2 : st.queryCanNeverReturnResults = true →
              st2.queryCanNeverReturnResults = true :=
            fun hq => hr1.2.2.2 (hc1.2.2.2 hq)
          cases r2 with
          | error e2 =>
            refine ⟨?_, ?_, ?_, ?_⟩ <;>
              simp only [parseChildren, hw, hr, leavesCOList]
            · exact hcases2
            · exact hnone2
            · intro ps' hps'
              exact absurd hps' (by simp)
            · exact hque2
          | ok ps2 =>
            refine ⟨?_, ?_, ?_, ?_⟩ <;>
              simp only [parseChildren, hw, hr, leavesCOList]
            · exact hcases2
            · exact hnone2
            · intro ps' _ co hco hdrop
              rcases List.mem_append.1 hco with hl | hrr
              · have : st1.projection = none := by
                  have := hc1.2.2.1 ps (by rfl) co hl hdrop
                  exact this
                rcases hr1.1 with h2 | h2
                · rw [h2, this]
                · exact h2
              · rcases hc1.1 with he | he
                · exact hr1.2.2.1 ps2 (by rfl) co hrr (by rwa [he])
                · rcases hr1.1 with h2 | h2
                  · rw [h2, he]
                  · exact h2
            · exact hque2

theorem parseInv_all : ∀ t : WhereNode, ParseInv t := by
  suffices h : ∀ n (t : WhereNode), sizeOf t ≤ n → ParseInv t from
    fun t => h (sizeOf t) t le_rfl
  intro n
  induction n with
  | zero =>
    intro t ht
    exfalso
    cases t <;> simp_arith at ht
  | succ n ih =>
    intro t ht
    cases t with
    | leaf c pk op v => exact parseInv_leaf c pk op v
    | node conn nneg children =>
      have hch : ∀ t' ∈ children, ParseInv t' := by
        intro t' ht'
        apply ih
        have h1 := List.sizeOf_lt_of_mem ht'
        have h2 : sizeOf (WhereNode.node conn nneg children) =
            1 + sizeOf conn + sizeOf nneg + sizeOf children := by simp
        omega
      have hcinv := childrenInv_of children hch
      intro st neg
      simp only [parseWhere]
      split
      all_goals split
      all_goals
        first
        | (refine ⟨Or.inl rfl, fun h => Or.inl h, ?_, fun h => h⟩
           intro ps hps
           exact absurd hps (by simp))
        | simpa only [leavesCO] using hcinv st _

theorem parseChildren_append (neg : Bool) (ys : List WhereNode) :
    ∀ (xs : List WhereNode) (st : ParseState),
    parseChildren st neg (xs ++ ys) =
      match parseChildren st neg xs with
      | (st1, .error e) => (st1, .error e)
      | (st1, .ok ps1) =>
        match parseChildren st1 neg ys with
        | (st2, .error e) => (st2, .error e)
        | (st2, .ok ps2) => (st2, .ok (ps1 ++ ps2)) := by
  intro xs
  induction xs with
  | nil =>
    intro st
    simp only [List.nil_append, parseChildren]
    cases hy : parseChildren st neg ys with
    | mk st2 r2 => cases r2 <;> simp
  | cons c rest ih =>
    intro st
    simp only [List.cons_append, parseChildren]
    cases hw : parseWhere st neg c with
    | mk st1 r1 =>
      cases r1 with
      | error e => rfl
      | ok ps =>
        simp only [List.append_eq]
        rw [ih st1]
        cases hr : parseChildren st1 neg rest with
        | mk st2 r2 =>
          cases r2 with
          | error e => simp [hr]
          | ok ps2 =>
            cases hy : parseChildren st2 neg ys with
            | mk st3 r3 => cases r3 <;> simp [hr, hy]

/-- Unfolding of `initSelect` on success: the parse ran from the initial
state, and the command's fields are the final parse state's, with
`all_filters` left at its `[]` initialization. -/
theorem initSelect_ok (m : Model) (ko af : Bool) (sel : List String)
    (dord : Bool) (ob : List String) (tree : WhereNode) (cmd : SelectCommand)
    (h : initSelect m ko af sel dord ob tree = .ok cmd) :
    ∃ st preds,
      parseWhere (initState m af (computeQueriedFields m ko af sel)) false tree
        = (st, .ok preds) ∧
      cmd.model = m ∧ cmd.pkCol = m.pkCol ∧
      cmd.projection = st.projection ∧
      cmd.includedPks = st.includedPks ∧ cmd.excludedPks = st.excludedPks ∧
      cmd.hasInequalityFilter = st.hasInequalityFilter ∧
      cmd.queryCanNeverReturnResults = st.queryCanNeverReturnResults ∧
      cmd.allFilters = [] ∧ cmd.whereList = preds := by
  simp only [initSelect] at h
  cases hp : parseWhere (initState m af (computeQueriedFields m ko af sel))
      false tree with
  | mk st r =>
    rw [hp] at h
    cases r with
    | error e => exact absurd h (by simp)
    | ok preds =>
      refine ⟨st, preds, rfl, ?_⟩
      simp only [Except.ok.injEq] at h
      subst h
      simp

theorem mem_candidateCols (m : Model) (af : Bool) (qf : List String) (f : String) :
    f ∈ candidateCols m af qf ↔ af = false ∧ f ∈ qf ∧ ¬(f = m.pkCol) := by
  unfold candidateCols
  cases af <;> simp

theorem projectionFieldsLoop_none_iff (m : Model) : ∀ qf : List String,
    projectionFieldsLoop m qf = none ↔
      ∃ f ∈ qf, ¬(f = m.pkCol) ∧ (dbTypeOf m f = "bytes" ∨ dbTypeOf m f = "text") := by
  intro qf
  induction qf with
  | nil => simp [projectionFieldsLoop]
  | cons f rest ih =>
    simp only [projectionFieldsLoop]
    split
    · rename_i hpk
      rw [ih]
      constructor
      · rintro ⟨g, hg, h1, h2⟩
        exact ⟨g, List.mem_cons_of_mem _ hg, h1, h2⟩
      · rintro ⟨g, hg, h1, h2⟩
        rcases List.mem_cons.1 hg with hgf | hgr
        · subst hgf
          exact absurd hpk h1
        · exact ⟨g, hgr, h1, h2⟩
    · rename_i hpk
      split
      · rename_i htype
        exact iff_of_true rfl ⟨f, List.mem_cons_self f rest, hpk, htype⟩
      · rename_i htype
        rw [Option.map_eq_none', ih]
        constructor
        · rintro ⟨g, hg, h1, h2⟩
          exact ⟨g, List.mem_cons_of_mem _ hg, h1, h2⟩
        · rintro ⟨g, hg, h1, h2⟩
          rcases List.mem_cons.1 hg with hgf | hgr
          · subst hgf
            exact absurd h2 htype
          · exact ⟨g, hgr, h1, h2⟩

theorem projectionFieldsLoop_some (m : Model) : ∀ (qf : List String)
    (l : List String), projectionFieldsLoop m qf = some l →
      l = qf.filter (fun f => !decide (f = m.pkCol)) := by
  intro qf
  induction qf with
  | nil =>
    intro l h
    simp only [projectionFieldsLoop, Option.some.injEq] at h
    simp [← h]
  | cons f rest ih =>
    intro l h
    simp only [projectionFieldsLoop] at h
    split at h
    · rename_i hpk
      rw [List.filter_cons]
      simp only [hpk, decide_eq_true_eq, if_neg, Bool.not_eq_true,
        decide_eq_false_iff_not, not_true_eq_false, not_false_eq_true,
        decide_not]
      rw [if_neg (by simp)]
      exact ih l h
    · rename_i hpk
      split at h
      · exact absurd h (by simp)
      · cases hr : projectionFieldsLoop m rest with
        | none =>
          rw [hr] at h
          simp at h
        | some l2 =>
          rw [hr] at h
          simp only [Option.map_some', Option.some.injEq] at h
          rw [← h, List.filter_cons, if_pos (by simp [hpk]), ih l2 hr]

theorem initialProjection_none_iff (m : Model) (af : Bool) (qf : List String) :
    initialProjection m af qf = none ↔
      (∃ f ∈ candidateCols m af qf,
        dbTypeOf m f = "bytes" ∨ dbTypeOf m f = "text")
      ∨ m.parents ≠ [] ∨ candidateCols m af qf = [] := by
  unfold initialProjection candidateCols
  cases af with
  | true => simp
  | false =>
    simp only [Bool.false_eq_true, if_false]
    cases hl : projectionFieldsLoop m qf with
    | none =>
      obtain ⟨f, hf, h1, h2⟩ := (projectionFieldsLoop_none_iff m qf).1 hl
      refine iff_of_true (by simp) (Or.inl ⟨f, ?_, h2⟩)
      simp only [List.mem_filter]
      exact ⟨hf, by simp [h1]⟩
    | some l =>
      have hfilter := projectionFieldsLoop_some m qf l hl
      have hnA : ¬∃ f ∈ qf.filter (fun f => !decide (f = m.pkCol)),
          dbTypeOf m f = "bytes" ∨ dbTypeOf m f = "text" := by
        rintro ⟨f, hf, h2⟩
        simp only [List.mem_filter] at hf
        have hfpk : ¬(f = m.pkCol) := by simpa using hf.2
        have : projectionFieldsLoop m qf = none :=
          (projectionFieldsLoop_none_iff m qf).2 ⟨f, hf.1, hfpk, h2⟩
        rw [hl] at this
        exact absurd this (by simp)
      simp only [Option.getD_some]
      constructor
      · intro hnone
        split at hnone
        · split at hnone
          · rename_i hd
            rw [List.isEmpty_iff] at hd
            rw [List.dedup_eq_nil] at hd
            exact Or.inr (Or.inr (hfilter ▸ hd))
          · exact absurd hnone (by simp)
        · rename_i hp
          rw [List.isEmpty_iff] at hp
          push_neg at hp
          exact Or.inr (Or.inl (by simpa using hp))
      · intro hcond
        rcases hcond with hA | hB | hD
        · exact absurd (hfilter ▸ hA) hnA
        · have : m.parents.isEmpty = false := by
            cases hpar : m.parents with
            | nil => exact absurd hpar hB
            | cons a as => rfl
          simp [this]
        · have hle : l = [] := hfilter ▸ hD
          simp [hle]

theorem initialProjection_some (m : Model) (af : Bool) (qf : List String)
    (l : List String) (h : initialProjection m af qf = some l) :
    l = (candidateCols m af qf).dedup ∧ candidateCols m af qf ≠ [] := by
  unfold initialProjection at h
  unfold candidateCols
  cases haf : af with
  | true =>
    rw [haf] at h
    simp at h
  | false =>
    rw [haf] at h
    simp only [Bool.false_eq_true, if_false] at h ⊢
    cases hl : projectionFieldsLoop m qf with
    | none =>
      rw [hl] at h
      simp at h
    | some l2 =>
      rw [hl] at h
      have hfilter := projectionFieldsLoop_some m qf l2 hl
      simp only [Option.getD_some] at h
      split at h
      · split at h
        · exact absurd h (by simp)
        · rename_i hd
          simp only [Option.some.injEq] at h
          rw [List.isEmpty_iff, List.dedup_eq_nil] at hd
          exact ⟨by rw [← h, hfilter], by rwa [← hfilter]⟩
      · exact absurd h (by simp)

theorem setF_eq_append (fs : List Pred) (c o : String) (v : Val)
    (h : ∀ e ∈ fs, ¬(e.1 = c ∧ e.2.1 = o)) :
    setF fs c o v = fs ++ [(c, o, v)] := by
  unfold setF
  rw [List.filter_eq_self.2 (fun e he => by
    simp only [decide_eq_true_eq]
    exact h e he)]

theorem mem_setF (fs : List Pred) (c o : String) (v : Val) (e : Pred)
    (h : e ∈ setF fs c o v) : e ∈ fs ∨ e = (c, o, v) := by
  unfold setF at h
  rcases List.mem_append.1 h with h1 | h1
  · exact Or.inl (List.mem_filter.1 h1).1
  · exact Or.inr (by simpa using h1)

theorem compileStep_exact (m : Model) (reg : Registry) (acc : CompileAcc)
    (p : Pred) (h : p.2.1 = "exact") :
    compileStep m reg acc p =
      .ok ⟨setF acc.filters (mapCol m p.1) "=" p.2.2, acc.combined⟩ := by
  obtain ⟨c, op, v⟩ := p
  simp only at h
  subst h
  rfl

theorem foldlM_exact (m : Model) (reg : Registry) :
    ∀ (l : List Pred) (acc : CompileAcc), (∀ p ∈ l, p.2.1 = "exact") →
      l.foldlM (compileStep m reg) acc = .ok ⟨eqFold m acc.filters l, acc.combined⟩ := by
  intro l
  induction l with
  | nil =>
    intro acc _
    simp only [List.foldlM_nil, eqFold, List.foldl_nil]
    rfl
  | cons p rest ih =>
    intro acc h
    rw [List.foldlM_cons, compileStep_exact m reg acc p (h p (by simp))]
    show rest.foldlM (compileStep m reg) _ = _
    rw [ih _ (fun q hq => h q (by simp [hq]))]
    rfl

theorem eqFold_mem (m : Model) :
    ∀ (l : List Pred) (fs : List Pred) (e : Pred), e ∈ eqFold m fs l →
      e ∈ fs ∨ ∃ p ∈ l, e.1 = mapCol m p.1 ∧ e.2.1 = "=" := by
  intro l
  induction l with
  | nil =>
    intro fs e he
    exact Or.inl (by simpa [eqFold] using he)
  | cons p rest ih =>
    intro fs e he
    have he2 : e ∈ eqFold m (setF fs (mapCol m p.1) "=" p.2.2) rest := by
      simpa [eqFold, List.foldl_cons] using he
    rcases ih _ e he2 with h1 | ⟨q, hq, h2⟩
    · rcases mem_setF _ _ _ _ _ h1 with h3 | h3
      · exact Or.inl h3
      · exact Or.inr ⟨p, by simp, by simp [h3]⟩
    · exact Or.inr ⟨q, by simp [hq], h2⟩

theorem expandAlternatives_kind (mTable : String) (q : QuerySpec) (c : Pred)
    (q2 : QuerySpec) (h : q2 ∈ expandAlternatives mTable q c) :
    q2.kind = mTable := by
  unfold expandAlternatives at h
  split at h
  · obtain ⟨v, _, hv⟩ := List.mem_map.1 h
    rw [← hv]
  · split at h
    · obtain ⟨o, _, ho⟩ := List.mem_map.1 h
      rw [← ho]
    · simp at h

theorem expandCombined_mem (mTable : String) :
    ∀ (cs : List Pred) (qs : List QuerySpec) (q : QuerySpec),
      q ∈ expandCombined mTable qs cs → q ∈ qs ∨ q.kind = mTable := by
  intro cs
  induction cs with
  | nil =>
    intro qs q h
    exact Or.inl (by simpa [expandCombined] using h)
  | cons c rest ih =>
    intro qs q h
    have h2 : q ∈ expandCombined mTable
        (qs.flatMap (fun q0 => expandAlternatives mTable q0 c)) rest := by
      simpa [expandCombined] using h
    rcases ih _ q h2 with h3 | h3
    · obtain ⟨q0, _, hq0⟩ := List.mem_flatMap.1 h3
      exact Or.inr (expandAlternatives_kind mTable q0 c q hq0)
    · exact Or.inr h3

theorem parseLeaf_nonneg_snd (st : ParseState) (c : String) (pk : Bool)
    (op : String) (v : Val) :
    (parseLeaf st false c pk op v).2 = .ok [(c, op, v)] := rfl

theorem parseLeaf_nonneg_hasIneq (st : ParseState) (c : String) (pk : Bool)
    (op : String) (v : Val) :
    (parseLeaf st false c pk op v).1.hasInequalityFilter =
      st.hasInequalityFilter := by
  unfold parseLeaf
  repeat' split
  all_goals simp_all [apply_ite (fun p : ParseState × Except ParseErr (List Pred) =>
    p.1.hasInequalityFilter)]

theorem parseLeaf_neg_exact_ok (st : ParseState) (c : String) (pk : Bool)
    (v : Val) (h : st.hasInequalityFilter = false) :
    (parseLeaf st true c pk "exact" v).2 = .ok [(c, "gt_and_lt", v)] ∧
    (parseLeaf st true c pk "exact" v).1.hasInequalityFilter = true := by
  unfold parseLeaf
  repeat' split
  all_goals simp_all

theorem parseLeaf_neg_exact_raise (st : ParseState) (c : String) (pk : Bool)
    (v : Val) (h : st.hasInequalityFilter = true) :
    (parseLeaf st true c pk "exact" v).2 = .error .multipleInequalityFilters := by
  unfold parseLeaf
  repeat' split
  all_goals simp_all

theorem parseLeaf_neg_other (st : ParseState) (c : String) (pk : Bool)
    (op : String) (v : Val) (h : ¬(op = "exact")) :
    (parseLeaf st true c pk op v).2 = .error (.unsupportedNegatedOperator op) := by
  unfold parseLeaf
  repeat' split
  all_goals simp_all

theorem parseLeaf_neg_in_pk_excluded (st : ParseState) (c : String) (v : Val) :
    (parseLeaf st true c true "in" v).1.excludedPks = st.excludedPks ++ [v] := by
  unfold parseLeaf
  repeat' split
  all_goals simp_all

-- The claims.

/-- C2: counterexample.  The claim's own example — a native range (`gt`) on
column "a" AND a negated equality on column "b" — does NOT raise
MultipleInequalityFilters: normalization succeeds and returns both
predicates, because only negated-equality rewrites set or check the
one-inequality flag (commands.py lines 147-153). -/
theorem C2_counterexample :
    (parseWhere st0 false (.node "AND" false
      [.leaf "a" false "gt" (.intV 5),
       .node "AND" true [.leaf "b" false "exact" (.intV 3)]])).2
      = .ok [("a", "gt", .intV 5), ("b", "gt_and_lt", .intV 3)] := by decide

/-- C2 (amended): MultipleInequalityFilters is raised only when a second
negated-equality predicate is encountered after a first one set the
inequality flag; native range operators neither set nor check the flag, so a
range on column a together with a negated equality on column b parses
successfully into `(a, gt, v)` and `(b, gt_and_lt, w)`, while two negated
equalities raise MultipleInequalityFilters. -/
theorem C2_amended (st : ParseState) (a b : String) (pka pkb : Bool)
    (v w : Val) (h : st.hasInequalityFilter = false) :
    (parseWhere st false (.node "AND" false
      [.leaf a pka "gt" v, .node "AND" true [.leaf b pkb "exact" w]])).2
      = .ok [(a, "gt", v), (b, "gt_and_lt", w)] ∧
    (parseWhere st false (.node "AND" false
      [.node "AND" true [.leaf a pka "exact" v],
       .node "AND" true [.leaf b pkb "exact" w]])).2
      = .error .multipleInequalityFilters := by
  constructor
  · cases hw1 : parseLeaf st false a pka "gt" v with
    | mk s1 r1 =>
      have hr1 : r1 = .ok [(a, "gt", v)] := by
        have hx := parseLeaf_nonneg_snd st a pka "gt" v
        rw [hw1] at hx
        exact hx
      have hs1 : s1.hasInequalityFilter = false := by
        have hx := parseLeaf_nonneg_hasIneq st a pka "gt" v
        rw [hw1] at hx
        simpa [h] using hx
      subst hr1
      cases hw2 : parseLeaf s1 true b pkb "exact" w with
      | mk s2 r2 =>
        have hr2 : r2 = .ok [(b, "gt_and_lt", w)] := by
          have hx := (parseLeaf_neg_exact_ok s1 b pkb w hs1).1
          rw [hw2] at hx
          exact hx
        subst hr2
        simp [parseWhere, parseChildren, hw1, hw2]
  · cases hw1 : parseLeaf st true a pka "exact" v with
    | mk s1 r1 =>
      have hr1 : r1 = .ok [(a, "gt_and_lt", v)] := by
        have hx := (parseLeaf_neg_exact_ok st a pka v h).1
        rw [hw1] at hx
        exact hx
      have hs1 : s1.hasInequalityFilter = true := by
        have hx := (parseLeaf_neg_exact_ok st a pka v h).2
        rw [hw1] at hx
        exact hx
      subst hr1
      cases hw2 : parseLeaf s1 true b pkb "exact" w with
      | mk s2 r2 =>
        have hr2 : r2 = .error .multipleInequalityFilters := by
          have hx := parseLeaf_neg_exact_raise s1 b pkb w hs1
          rw [hw2] at hx
          exact hx
        subst hr2
        simp [parseWhere, parseChildren, hw1, hw2]

/-- Witness for C2 (amended) at the concrete example of the claim. -/
theorem C2_witness :
    (parseWhere st0 false (.node "AND" false
      [.leaf "price" false "gt" (.intV 5),
       .node "AND" true [.leaf "state" false "exact" (.intV 3)]])).2
      = .ok [("price", "gt", .intV 5), ("state", "gt_and_lt", .intV 3)] ∧
    (parseWhere st0 false (.node "AND" false
      [.node "AND" true [.leaf "price" false "exact" (.intV 5)],
       .node "AND" true [.leaf "state" false "exact" (.intV 3)]])).2
      = .error .multipleInequalityFilters :=
  C2_amended st0 "price" "state" false false (.intV 5) (.intV 3) rfl

/-- C3: counterexample.  A negated membership-in-set predicate is NOT
accepted: normalization raises UnsupportedNegatedOperator for it
(commands.py line 155 — only `exact` survives the negated branch). -/
theorem C3_counterexample :
    (parseWhere st0 false (.node "AND" true
      [.leaf "tags" false "in" (.listV [.int 1, .int 2])])).2
      = .error (.unsupportedNegatedOperator "in") := by decide

/-- C3 (amended): for a leaf under negation, only the `exact` operator is
accepted (when no inequality filter was recorded yet, producing the
`gt_and_lt` rewrite); every other operator — membership-in-set included —
raises UnsupportedNegatedOperator. -/
theorem C3_amended (st : ParseState) (c : String) (pk : Bool) (op : String)
    (v : Val) :
    (¬(op = "exact") →
      (parseLeaf st true c pk op v).2 = .error (.unsupportedNegatedOperator op)) ∧
    (op = "exact" → st.hasInequalityFilter = false →
      (parseLeaf st true c pk op v).2 = .ok [(c, "gt_and_lt", v)]) :=
  ⟨fun h => parseLeaf_neg_other st c pk op v h,
   fun h1 h2 => by
     subst h1
     exact (parseLeaf_neg_exact_ok st c pk v h2).1⟩

/-- Witness for C3 (amended): a negated `in` raises, a negated `exact` is
rewritten. -/
theorem C3_witness :
    (parseLeaf st0 true "tags" false "in" (.listV [.int 1])).2
      = .error (.unsupportedNegatedOperator "in") ∧
    (parseLeaf st0 true "size" false "exact" (.intV 7)).2
      = .ok [("size", "gt_and_lt", .intV 7)] :=
  ⟨(C3_amended st0 "tags" false "in" (.listV [.int 1])).1 (by decide),
   (C3_amended st0 "size" false "exact" (.intV 7)).2 rfl rfl⟩

/-- C10: a negated membership-in-set predicate on the primary key first
appends the value set to `excluded_pks` and only then raises
UnsupportedNegatedOperator — the accumulated key-exclusion state is mutated
even though normalization fails (commands.py lines 142-155). -/
theorem C10_excluded_mutated_before_raise (st : ParseState) (c : String)
    (vs : List Scalar) :
    (parseWhere st false (.node "AND" true
      [.leaf c true "in" (.listV vs)])).2
      = .error (.unsupportedNegatedOperator "in") ∧
    (parseWhere st false (.node "AND" true
      [.leaf c true "in" (.listV vs)])).1.excludedPks
      = st.excludedPks ++ [.listV vs] := by
  cases hw : parseLeaf st true c true "in" (.listV vs) with
  | mk s1 r1 =>
    have hr : r1 = .error (.unsupportedNegatedOperator "in") := by
      have hx := parseLeaf_neg_other st c true "in" (.listV vs) (by decide)
      rw [hw] at hx
      exact hx
    have hex : s1.excludedPks = st.excludedPks ++ [.listV vs] := by
      have hx := parseLeaf_neg_in_pk_excluded st c (.listV vs)
      rw [hw] at hx
      exact hx
    subst hr
    constructor <;> simp [parseWhere, parseChildren, hw, hex]

theorem parseLeaf_pk_null_que (st : ParseState) (c : String) (op : String)
    (v : Val) (hop : (op = "exact" ∧ v = Val.nullV) ∨ op = "isnull") :
    (parseLeaf st false c true op v).1.queryCanNeverReturnResults = true := by
  unfold parseLeaf
  repeat' split
  all_goals simp_all

/-- C6: a (non-negated, top-level) `exact` predicate on the primary key with a
null value, or an `isnull` predicate on the primary key, flags the query
always-empty (`query_can_never_return_results`, lines 156-161); `execute`
then returns an empty result immediately (lines 177-180) with zero store
calls and zero cache lookups. -/
theorem C6_pk_null_always_empty (m : Model) (ko af : Bool) (sel : List String)
    (dord : Bool) (ob : List String) (pre post : List WhereNode) (op : String)
    (v : Val) (cmd : SelectCommand) (reg : Registry) (store : StoreModel)
    (hop : (op = "exact" ∧ v = Val.nullV) ∨ op = "isnull")
    (h : initSelect m ko af sel dord ob
      (.node "AND" false (pre ++ .leaf m.pkCol true op v :: post)) = .ok cmd) :
    cmd.queryCanNeverReturnResults = true ∧
    executeCompile cmd reg = .ok .empty ∧
    doFetch cmd.allFilters ExecOutcome.empty store = .fetched [] 0 0 := by
  obtain ⟨st, preds, hp, -, -, -, -, -, -, hque, -, -⟩ :=
    initSelect_ok m ko af sel dord ob _ cmd h
  have hp2 : parseChildren (initState m af (computeQueriedFields m ko af sel))
      false (pre ++ .leaf m.pkCol true op v :: post) = (st, .ok preds) := by
    simpa [parseWhere] using hp
  rw [parseChildren_append] at hp2
  cases hpre : parseChildren (initState m af (computeQueriedFields m ko af sel))
      false pre with
  | mk s1 r1 =>
    rw [hpre] at hp2
    cases r1 with
    | error e => simp at hp2
    | ok ps1 =>
      cases hleaf : parseLeaf s1 false m.pkCol true op v with
      | mk s2 r2 =>
        have hr2 : r2 = .ok [(m.pkCol, op, v)] := by
          have hx := parseLeaf_nonneg_snd s1 m.pkCol true op v
          rw [hleaf] at hx
          exact hx
        have hs2 : s2.queryCanNeverReturnResults = true := by
          have hx := parseLeaf_pk_null_que s1 m.pkCol op v hop
          rw [hleaf] at hx
          exact hx
        subst hr2
        simp only [parseChildren, parseWhere, hleaf] at hp2
        cases hpost : parseChildren s2 false post with
        | mk s3 r3 =>
          rw [hpost] at hp2
          have hinv := childrenInv_of post (fun t _ => parseInv_all t) s2 false
          rw [hpost] at hinv
          have hs3 : s3.queryCanNeverReturnResults = true := hinv.2.2.2 hs2
          cases r3 with
          | error e => simp at hp2
          | ok ps3 =>
            simp only [Prod.mk.injEq, Except.ok.injEq] at hp2
            have hst : st = s3 := hp2.1.symm
            have hcq : cmd.queryCanNeverReturnResults = true := by
              rw [hque, hst]
              exact hs3
            refine ⟨hcq, ?_, rfl⟩
            simp [executeCompile, hcq]

/-- Witness for C6 on `User` with filter `id = None`: the compiled query is
flagged always-empty and the fetch performs no store call. -/
theorem C6_witness :
    (okOr (initSelect mUser false false [] false []
        (.node "AND" false [.leaf "id" true "exact" Val.nullV])) dCmd
      ).queryCanNeverReturnResults = true ∧
    executeCompile (okOr (initSelect mUser false false [] false []
        (.node "AND" false [.leaf "id" true "exact" Val.nullV])) dCmd) reg0
      = .ok .empty ∧
    doFetch (okOr (initSelect mUser false false [] false []
        (.node "AND" false [.leaf "id" true "exact" Val.nullV])) dCmd
      ).allFilters ExecOutcome.empty store0 = .fetched [] 0 0 := by
  have h : initSelect mUser false false [] false []
      (.node "AND" false [.leaf "id" true "exact" Val.nullV])
      = .ok (okOr (initSelect mUser false false [] false []
          (.node "AND" false [.leaf "id" true "exact" Val.nullV])) dCmd) := by
    rfl
  exact C6_pk_null_always_empty mUser false false [] false [] [] [] "exact"
    Val.nullV _ reg0 store0 (Or.inl ⟨rfl, rfl⟩) h

/-- C1 (code-bug exhibit): for every successfully initialized SelectCommand
whose compiled form is a single QuerySpec, the fetch phase performs ZERO
cache lookups and exactly one store call — even when the equality filters
fully cover a declared unique-field-combination.  `__init__` sets
`self.all_filters = []` (line 71) and no statement in the module ever appends
to it, so the cache branch of `_do_fetch` (lines 286-303) is unreachable; had
it been reached, `get_uniques_from_model`, `generate_unique_key` and
`get_entity_from_cache` are not defined or imported in the module, so a
NameError would precede any cache read. -/
theorem C1_cache_short_circuit_dead (m : Model) (ko af : Bool)
    (sel : List String) (dord : Bool) (ob : List String) (tree : WhereNode)
    (cmd : SelectCommand) (reg : Registry)
    (h : initSelect m ko af sel dord ob tree = .ok cmd) :
    cmd.allFilters = [] ∧
    ∀ (q : QuerySpec) (ord : List (String × Bool)) (store : StoreModel),
      executeCompile cmd reg = .ok (.single q ord) →
      (∃ combo ∈ m.uniqueCombinations, ∀ col ∈ combo,
        ∃ e ∈ q.filters, e.1 = col ∧ e.2.1 = "=") →
      doFetch cmd.allFilters (.single q ord) store
        = .fetched (store.runSingle q ord) 0 1 := by
  obtain ⟨st, preds, hp, -, -, -, -, -, -, -, hall, -⟩ :=
    initSelect_ok m ko af sel dord ob tree cmd h
  refine ⟨hall, ?_⟩
  intro q ord store _ _
  rw [hall]
  rfl

/-- Witness for C1: `User` with the spec's example filter
`email = "a@b.com"` — a full equality match on the declared unique
combination `[email]` — still performs zero cache lookups and one store
call. -/
theorem C1_witness :
    (okOr (initSelect mUser false false [] false []
        (.node "AND" false [.leaf "email" false "exact" (.strV "a@b.com")]))
      dCmd).allFilters = [] ∧
    doFetch
      (okOr (initSelect mUser false false [] false []
          (.node "AND" false [.leaf "email" false "exact" (.strV "a@b.com")]))
        dCmd).allFilters
      (.single
        (qOf (okOr (executeCompile
          (okOr (initSelect mUser false false [] false []
              (.node "AND" false [.leaf "email" false "exact" (.strV "a@b.com")]))
            dCmd) reg0) dOut))
        (ordOf (okOr (executeCompile
          (okOr (initSelect mUser false false [] false []
              (.node "AND" false [.leaf "email" false "exact" (.strV "a@b.com")]))
            dCmd) reg0) dOut)))
      store0
      = .fetched
          (store0.runSingle
            (qOf (okOr (executeCompile
              (okOr (initSelect mUser false false [] false []
                  (.node "AND" false
                    [.leaf "email" false "exact" (.strV "a@b.com")]))
                dCmd) reg0) dOut))
            (ordOf (okOr (executeCompile
              (okOr (initSelect mUser false false [] false []
                  (.node "AND" false
                    [.leaf "email" false "exact" (.strV "a@b.com")]))
                dCmd) reg0) dOut)))
          0 1 := by
  have h : initSelect mUser false false [] false []
      (.node "AND" false [.leaf "email" false "exact" (.strV "a@b.com")])
      = .ok (okOr (initSelect mUser false false [] false []
          (.node "AND" false [.leaf "email" false "exact" (.strV "a@b.com")]))
        dCmd) := by rfl
  have hmain := C1_cache_short_circuit_dead mUser false false [] false [] _ _
    reg0 h
  exact ⟨hmain.1, hmain.2 _ _ store0 (by rfl) (by decide)⟩

/-- C8: for a predicate whose operator is not store-native
(`OPERATORS_MAP.get` yields none) but requires a special index: with no index
registered for the (model, column, operator) combination, compilation fails
with an error naming the model, the column and the operator (lines 214-217);
with an index registered, the predicate is rewritten into an equality filter
on the resolved indexed column name with the transformed value
(lines 219-222). -/
theorem C8_special_index (m : Model) (reg : Registry) (acc : CompileAcc)
    (c op : String) (v : Val) (h1 : OPERATORS_MAP op = none)
    (h2 : reg.requires op = true) :
    (¬(op ∈ reg.specialFor m.name (mapCol m c)) →
      compileStep m reg acc (c, op, v)
        = .error (.missingIndex m.name (mapCol m c) op)) ∧
    (op ∈ reg.specialFor m.name (mapCol m c) →
      compileStep m reg acc (c, op, v)
        = .ok ⟨setF acc.filters (reg.indexedColumnName op (mapCol m c)) "="
            (reg.prepValueForQuery op v), acc.combined⟩) := by
  unfold compileStep
  simp only [h1, h2, if_true]
  constructor
  · intro hn
    rw [if_neg hn]
  · intro hy
    rw [if_pos hy]

/-- Witness for C8: `iexact` on `User.name` fails against a registry with no
index for it, and is rewritten to an equality on the indexed column against a
registry that has one. -/
theorem C8_witness :
    compileStep mUser regMissing ⟨[], []⟩ ("name", "iexact", .strV "Bob")
      = .error (.missingIndex mUser.name (mapCol mUser "name") "iexact") ∧
    compileStep mUser regIdx ⟨[], []⟩ ("name", "iexact", .strV "Bob")
      = .ok ⟨setF [] (regIdx.indexedColumnName "iexact" (mapCol mUser "name"))
          "=" (regIdx.prepValueForQuery "iexact" (.strV "Bob")), []⟩ :=
  ⟨(C8_special_index mUser regMissing ⟨[], []⟩ "name" "iexact" (.strV "Bob")
      rfl rfl).1 (by decide),
   (C8_special_index mUser regIdx ⟨[], []⟩ "name" "iexact" (.strV "Bob")
      rfl rfl).2 (by decide)⟩

/-- C9: every member of an expanded (multi-query) physical set is built
against the model's own `db_table` (line 253 and 259 construct
`datastore.Query(self.model._meta.db_table)`), while the single unexpanded
query is built against the inheritance root's table (line 194-195) — so the
kinds genuinely differ whenever the model has concrete parents. -/
theorem C9_expanded_queries_use_model_table (cmd : SelectCommand)
    (reg : Registry) :
    (∀ (qs : List QuerySpec) (ord : List (String × Bool)),
      executeCompile cmd reg = .ok (.multi qs ord) →
      ∀ q ∈ qs, q.kind = cmd.model.dbTable) ∧
    (∀ (q : QuerySpec) (ord : List (String × Bool)),
      executeCompile cmd reg = .ok (.single q ord) →
      q.kind = inheritanceRootTable cmd.model) := by
  constructor
  · intro qs ord hE q hq
    unfold executeCompile at hE
    split at hE
    · simp at hE
    · cases hf : cmd.whereList.foldlM (compileStep cmd.model reg)
          ⟨baseFilters0 cmd.model, []⟩ with
      | error e => simp [hf] at hE
      | ok acc =>
        simp only [hf] at hE
        split at hE
        · simp at hE
        · rename_i hcomb
          simp only [Except.ok.injEq, ExecOutcome.multi.injEq] at hE
          obtain ⟨hqs, -⟩ := hE
          rw [← hqs] at hq
          cases hc : acc.combined with
          | nil =>
            rw [hc] at hcomb
            simp at hcomb
          | cons c0 cs =>
            rw [hc] at hq
            have hmem := expandCombined_mem cmd.model.dbTable (c0 :: cs) _ q hq
            rcases hmem with hm | hm
            · have hq2 : q ∈ expandCombined cmd.model.dbTable
                  (([⟨inheritanceRootTable cmd.model, cmd.projection,
                    acc.filters⟩] : List QuerySpec).flatMap
                    (fun q0 => expandAlternatives cmd.model.dbTable q0 c0)) cs := by
                simpa [expandCombined] using hq
              rcases expandCombined_mem cmd.model.dbTable cs _ q hq2 with hm2 | hm2
              · obtain ⟨q0, -, hq0⟩ := List.mem_flatMap.1 hm2
                exact expandAlternatives_kind cmd.model.dbTable q0 c0 q hq0
              · exact hm2
            · exact hm
  · intro q ord hE
    unfold executeCompile at hE
    split at hE
    · simp at hE
    · cases hf : cmd.whereList.foldlM (compileStep cmd.model reg)
          ⟨baseFilters0 cmd.model, []⟩ with
      | error e => simp [hf] at hE
      | ok acc =>
        simp only [hf] at hE
        split at hE
        · simp only [Except.ok.injEq, ExecOutcome.single.injEq] at hE
          obtain ⟨hq0, -⟩ := hE
          rw [← hq0]
        · simp at hE

/-- Witness for C9: a `status IN ("a","b")` query on a model with a concrete
parent — both expanded queries carry the child's own table, while the
inheritance root's table (the single-query kind) differs. -/
theorem C9_witness :
    (qsOf (okOr (executeCompile
      (⟨mChild, "id", ["__key__"], true, none, [], [], false, false, [],
        [("status", "in", Val.listV [.str "a", .str "b"])], []⟩ : SelectCommand)
      reg0) dOut)).all (fun q => q.kind == mChild.dbTable) = true ∧
    inheritanceRootTable mChild = "app_parent" ∧
    mChild.dbTable = "app_child" := by
  have hE : executeCompile
      (⟨mChild, "id", ["__key__"], true, none, [], [], false, false, [],
        [("status", "in", Val.listV [.str "a", .str "b"])], []⟩ : SelectCommand)
      reg0
      = .ok (.multi (qsOf (okOr (executeCompile
          (⟨mChild, "id", ["__key__"], true, none, [], [], false, false, [],
            [("status", "in", Val.listV [.str "a", .str "b"])], []⟩ :
              SelectCommand) reg0) dOut)) []) := by rfl
  refine ⟨?_, rfl, rfl⟩
  rw [List.all_eq_true]
  intro q hq
  have hk := (C9_expanded_queries_use_model_table _ reg0).1 _ _ hE q hq
  simpa [beq_iff_eq] using hk

theorem foldlM_with_combined (m : Model) (reg : Registry) :
    ∀ (pre : List Pred) (post : List Pred) (c op : String) (v : Val)
      (b : List Pred),
      (∀ p ∈ pre ++ post, p.2.1 = "exact") →
      OPERATORS_MAP op = none → reg.requires op = false →
      (op = "in" ∨ op = "gt_and_lt") →
      (pre ++ (c, op, v) :: post).foldlM (compileStep m reg) ⟨b, []⟩
        = .ok ⟨eqFold m (eqFold m b pre) post, [(mapCol m c, op, v)]⟩ := by
  intro pre
  induction pre with
  | nil =>
    intro post c op v b hex hOM hreq hop
    have hstep : compileStep m reg ⟨b, []⟩ (c, op, v)
        = .ok ⟨b, [(mapCol m c, op, v)]⟩ := by
      unfold compileStep
      rcases hop with h | h <;> subst h <;> simp [hOM, hreq]
    rw [List.nil_append, List.foldlM_cons, hstep]
    show post.foldlM (compileStep m reg) _ = _
    rw [foldlM_exact m reg post _ (fun p hp => hex p (by simpa using hp))]
    rfl
  | cons p pre2 ih =>
    intro post c op v b hex hOM hreq hop
    rw [List.cons_append, List.foldlM_cons,
      compileStep_exact m reg _ p (hex p (by simp))]
    show (pre2 ++ (c, op, v) :: post).foldlM (compileStep m reg) _ = _
    rw [ih post c op v _ (fun q hq => hex q (by
      rcases List.mem_append.1 hq with h | h
      · exact List.mem_append_left _ (List.mem_cons_of_mem _ h)
      · exact List.mem_append_right _ h)) hOM hreq hop]
    rfl

theorem executeCompile_one_combined (cmd : SelectCommand) (reg : Registry)
    (c op : String) (v : Val) (F : List Pred)
    (hq : cmd.queryCanNeverReturnResults = false)
    (hfold : cmd.whereList.foldlM (compileStep cmd.model reg)
      ⟨baseFilters0 cmd.model, []⟩ = .ok ⟨F, [(c, op, v)]⟩) :
    executeCompile cmd reg = .ok (.multi
      (expandAlternatives cmd.model.dbTable
        ⟨inheritanceRootTable cmd.model, cmd.projection, F⟩ (c, op, v))
      (computeOrdering cmd.model cmd.ordering)) := by
  unfold executeCompile
  rw [if_neg (by simp [hq])]
  simp only [hfold]
  rw [if_neg (by simp)]
  simp [expandCombined]

/-- C5: for a where list of equality predicates AND one membership-in-set
predicate over values vs, compilation produces a physical query set with
exactly `vs.length` members, each carrying the membership predicate
instantiated with one of the values (`column = value`) together with all the
other equality filters (lines 246-256). -/
theorem C5_membership_expansion (cmd : SelectCommand) (reg : Registry)
    (pre post : List Pred) (c : String) (vs : List Scalar)
    (hq : cmd.queryCanNeverReturnResults = false)
    (hw : cmd.whereList = pre ++ (c, "in", Val.listV vs) :: post)
    (hex : ∀ p ∈ pre ++ post, p.2.1 = "exact")
    (hreq : reg.requires "in" = false)
    (hpar : concreteParents cmd.model = [])
    (hcols : ∀ p ∈ pre ++ post, mapCol cmd.model p.1 ≠ mapCol cmd.model c) :
    executeCompile cmd reg = .ok (.multi
      ((vs.map Val.scal).map (fun w => ⟨cmd.model.dbTable, none,
        setF (eqFold cmd.model (eqFold cmd.model [] pre) post)
          (mapCol cmd.model c) "=" w⟩))
      (computeOrdering cmd.model cmd.ordering)) ∧
    ((vs.map Val.scal).map (fun w => (⟨cmd.model.dbTable, none,
        setF (eqFold cmd.model (eqFold cmd.model [] pre) post)
          (mapCol cmd.model c) "=" w⟩ : QuerySpec))).length = vs.length ∧
    ∀ w ∈ vs.map Val.scal,
      setF (eqFold cmd.model (eqFold cmd.model [] pre) post)
        (mapCol cmd.model c) "=" w
      = eqFold cmd.model (eqFold cmd.model [] pre) post
        ++ [(mapCol cmd.model c, "=", w)] := by
  have hbase : baseFilters0 cmd.model = [] := by
    unfold baseFilters0
    simp [hpar]
  have hfold : cmd.whereList.foldlM (compileStep cmd.model reg)
      ⟨baseFilters0 cmd.model, []⟩
      = .ok ⟨eqFold cmd.model (eqFold cmd.model [] pre) post,
          [(mapCol cmd.model c, "in", Val.listV vs)]⟩ := by
    rw [hw, hbase]
    exact foldlM_with_combined cmd.model reg pre post c "in" (Val.listV vs) []
      hex rfl hreq (Or.inl rfl)
  have hE := executeCompile_one_combined cmd reg _ _ _ _ hq hfold
  refine ⟨?_, by simp, ?_⟩
  · rw [hE]
    unfold expandAlternatives iterVals
    simp
  · intro w _
    apply setF_eq_append
    intro e he
    rintro ⟨h1, -⟩
    rcases eqFold_mem cmd.model post _ e he with h2 | ⟨p, hp, h3, -⟩
    · rcases eqFold_mem cmd.model pre _ e h2 with h4 | ⟨p, hp, h3, -⟩
      · simp at h4
      · exact hcols p (List.mem_append_left _ hp) (by rw [← h3, h1])
    · exact hcols p (List.mem_append_right _ hp) (by rw [← h3, h1])

/-- Witness for C5: `status IN ("a","b","c") AND name = "z"` on `User`
expands to three queries, each carrying the name equality plus one status
value. -/
theorem C5_witness :
    executeCompile
      (⟨mUser, "id", ["__key__"], true, none, [], [], false, false, [],
        [("name", "exact", Val.strV "z"),
         ("status", "in", Val.listV [.str "a", .str "b", .str "c"])], []⟩ :
          SelectCommand) reg0
      = .ok (.multi
        (([Scalar.str "a", .str "b", .str "c"].map Val.scal).map (fun w =>
          ⟨mUser.dbTable, none,
            setF (eqFold mUser (eqFold mUser [] [("name", "exact", Val.strV "z")]) [])
              (mapCol mUser "status") "=" w⟩))
        (computeOrdering mUser [])) ∧
    (([Scalar.str "a", .str "b", .str "c"].map Val.scal).map (fun w =>
      (⟨mUser.dbTable, none,
        setF (eqFold mUser (eqFold mUser [] [("name", "exact", Val.strV "z")]) [])
          (mapCol mUser "status") "=" w⟩ : QuerySpec))).length = 3 ∧
    ∀ w ∈ [Scalar.str "a", .str "b", .str "c"].map Val.scal,
      setF (eqFold mUser (eqFold mUser [] [("name", "exact", Val.strV "z")]) [])
        (mapCol mUser "status") "=" w
      = eqFold mUser (eqFold mUser [] [("name", "exact", Val.strV "z")]) []
        ++ [(mapCol mUser "status", "=", w)] :=
  C5_membership_expansion
    (⟨mUser, "id", ["__key__"], true, none, [], [], false, false, [],
      [("name", "exact", Val.strV "z"),
       ("status", "in", Val.listV [.str "a", .str "b", .str "c"])], []⟩ :
        SelectCommand) reg0
    [("name", "exact", Val.strV "z")] [] "status" [.str "a", .str "b", .str "c"]
    rfl rfl (by decide) rfl rfl (by decide)

/-- C4: a negated `exact` on column C with value v is rewritten by the
normalizer into `(C, gt_and_lt, v)`; compilation then expands it into exactly
two physical queries, one carrying `C < v` and one carrying `C > v`
(lines 257-262), and — for entities whose C-property is an integer, with the
other equality filters held — the union of the two queries is satisfied
exactly by the entities where C is not equal to v. -/
theorem C4_negated_equal_expansion (cmd : SelectCommand) (reg : Registry)
    (pre post : List Pred) (C : String) (v : Val) (st : ParseState)
    (pkC : Bool)
    (hst : st.hasInequalityFilter = false)
    (hq : cmd.queryCanNeverReturnResults = false)
    (hw : cmd.whereList = pre ++ (C, "gt_and_lt", v) :: post)
    (hex : ∀ p ∈ pre ++ post, p.2.1 = "exact")
    (hreq : reg.requires "gt_and_lt" = false)
    (hpar : concreteParents cmd.model = [])
    (hcols : ∀ p ∈ pre ++ post, mapCol cmd.model p.1 ≠ mapCol cmd.model C) :
    (parseLeaf st true C pkC "exact" v).2 = .ok [(C, "gt_and_lt", v)] ∧
    executeCompile cmd reg = .ok (.multi
      [⟨cmd.model.dbTable, none,
        setF (eqFold cmd.model (eqFold cmd.model [] pre) post)
          (mapCol cmd.model C) "<" v⟩,
       ⟨cmd.model.dbTable, none,
        setF (eqFold cmd.model (eqFold cmd.model [] pre) post)
          (mapCol cmd.model C) ">" v⟩]
      (computeOrdering cmd.model cmd.ordering)) ∧
    ∀ (e : String → Val) (x n : Int), v = .intV n →
      e (mapCol cmd.model C) = .intV x →
      ((querySat e ⟨cmd.model.dbTable, none,
          setF (eqFold cmd.model (eqFold cmd.model [] pre) post)
            (mapCol cmd.model C) "<" v⟩ = true ∨
        querySat e ⟨cmd.model.dbTable, none,
          setF (eqFold cmd.model (eqFold cmd.model [] pre) post)
            (mapCol cmd.model C) ">" v⟩ = true)
       ↔ (querySat e ⟨cmd.model.dbTable, none,
            eqFold cmd.model (eqFold cmd.model [] pre) post⟩ = true ∧
          ¬(e (mapCol cmd.model C) = v))) := by
  have hFne : ∀ e ∈ eqFold cmd.model (eqFold cmd.model [] pre) post,
      e.1 ≠ mapCol cmd.model C := by
    intro e he
    rcases eqFold_mem cmd.model post _ e he with h2 | ⟨p, hp, h3, -⟩
    · rcases eqFold_mem cmd.model pre _ e h2 with h4 | ⟨p, hp, h3, -⟩
      · simp at h4
      · exact fun hcon => hcols p (List.mem_append_left _ hp) (by rw [← h3, hcon])
    · exact fun hcon => hcols p (List.mem_append_right _ hp) (by rw [← h3, hcon])
  have hsetlt : setF (eqFold cmd.model (eqFold cmd.model [] pre) post)
      (mapCol cmd.model C) "<" v
      = eqFold cmd.model (eqFold cmd.model [] pre) post
        ++ [(mapCol cmd.model C, "<", v)] :=
    setF_eq_append _ _ _ _ (fun e he hcon => hFne e he hcon.1)
  have hsetgt : setF (eqFold cmd.model (eqFold cmd.model [] pre) post)
      (mapCol cmd.model C) ">" v
      = eqFold cmd.model (eqFold cmd.model [] pre) post
        ++ [(mapCol cmd.model C, ">", v)] :=
    setF_eq_append _ _ _ _ (fun e he hcon => hFne e he hcon.1)
  refine ⟨(parseLeaf_neg_exact_ok st C pkC v hst).1, ?_, ?_⟩
  · have hbase : baseFilters0 cmd.model = [] := by
      unfold baseFilters0
      simp [hpar]
    have hfold : cmd.whereList.foldlM (compileStep cmd.model reg)
        ⟨baseFilters0 cmd.model, []⟩
        = .ok ⟨eqFold cmd.model (eqFold cmd.model [] pre) post,
            [(mapCol cmd.model C, "gt_and_lt", v)]⟩ := by
      rw [hw, hbase]
      exact foldlM_with_combined cmd.model reg pre post C "gt_and_lt" v []
        hex rfl hreq (Or.inr rfl)
    have hE := executeCompile_one_combined cmd reg _ _ _ _ hq hfold
    rw [hE]
    unfold expandAlternatives
    simp
  · intro e x n hv he
    subst hv
    rw [hsetlt, hsetgt]
    simp only [querySat, List.all_append, List.all_cons, List.all_nil,
      Bool.and_true, Bool.and_eq_true]
    have hlt : filterSat e (mapCol cmd.model C, "<", Val.intV n)
        = decide (x < n) := by
      simp [filterSat, he, valLt]
    have hgt : filterSat e (mapCol cmd.model C, ">", Val.intV n)
        = decide (n < x) := by
      simp [filterSat, he, valLt]
    rw [hlt, hgt, he]
    simp only [Val.intV, Val.scal.injEq, Scalar.int.injEq,
      decide_eq_true_eq]
    constructor
    · rintro (⟨h1, h2⟩ | ⟨h1, h2⟩) <;> exact ⟨h1, by omega⟩
    · rintro ⟨h1, h2⟩
      rcases lt_or_gt_of_ne h2 with h | h
      · exact Or.inl ⟨h1, h⟩
      · exact Or.inr ⟨h1, h⟩

/-- Witness for C4: `name = "z" AND NOT (count = 4)` on `User`, evaluated at
an entity with count = 7. -/
theorem C4_witness :
    (parseLeaf st0 true "count" false "exact" (.intV 4)).2
      = .ok [("count", "gt_and_lt", .intV 4)] ∧
    executeCompile
      (⟨mUser, "id", ["__key__"], true, none, [], [], true, false, [],
        [("name", "exact", Val.strV "z"), ("count", "gt_and_lt", Val.intV 4)],
        []⟩ : SelectCommand) reg0
      = .ok (.multi
        [⟨mUser.dbTable, none,
          setF (eqFold mUser (eqFold mUser [] [("name", "exact", Val.strV "z")]) [])
            (mapCol mUser "count") "<" (.intV 4)⟩,
         ⟨mUser.dbTable, none,
          setF (eqFold mUser (eqFold mUser [] [("name", "exact", Val.strV "z")]) [])
            (mapCol mUser "count") ">" (.intV 4)⟩]
        (computeOrdering mUser [])) ∧
    ((querySat (fun col => if col = "count" then Val.intV 7 else Val.nullV)
        ⟨mUser.dbTable, none,
          setF (eqFold mUser (eqFold mUser [] [("name", "exact", Val.strV "z")]) [])
            (mapCol mUser "count") "<" (.intV 4)⟩ = true ∨
      querySat (fun col => if col = "count" then Val.intV 7 else Val.nullV)
        ⟨mUser.dbTable, none,
          setF (eqFold mUser (eqFold mUser [] [("name", "exact", Val.strV "z")]) [])
            (mapCol mUser "count") ">" (.intV 4)⟩ = true)
     ↔ (querySat (fun col => if col = "count" then Val.intV 7 else Val.nullV)
          ⟨mUser.dbTable, none,
            eqFold mUser (eqFold mUser [] [("name", "exact", Val.strV "z")]) []⟩
          = true ∧
        ¬((fun col => if col = "count" then Val.intV 7 else Val.nullV)
            (mapCol mUser "count") = Val.intV 4))) := by
  have h := C4_negated_equal_expansion
    (⟨mUser, "id", ["__key__"], true, none, [], [], true, false, [],
      [("name", "exact", Val.strV "z"), ("count", "gt_and_lt", Val.intV 4)],
      []⟩ : SelectCommand) reg0
    [("name", "exact", Val.strV "z")] [] "count" (Val.intV 4) st0 false
    rfl rfl rfl (by decide) rfl rfl (by decide)
  exact ⟨h.1, h.2.1, h.2.2
    (fun col => if col = "count" then Val.intV 7 else Val.nullV) 7 4 rfl
    (by decide)⟩

/-- C7: counterexample.  A keys-only query (queried fields = just the primary
key) on a model with no parents and an empty filter tree has its projection
dropped to `None` (line 98's `or None` turns the empty candidate list into no
projection) although none of the claim's three conditions holds: no candidate
column is text/bytes, the model has no inheritance ancestors, and there is no
filtered column at all. -/
theorem C7_counterexample :
    (initSelect mUser true false [] false [] (.node "AND" false [])).map
      (fun c => c.projection) = .ok none ∧
    (¬∃ f ∈ candidateCols mUser false (computeQueriedFields mUser true false []),
      dbTypeOf mUser f = "bytes" ∨ dbTypeOf mUser f = "text") ∧
    mUser.parents = [] ∧
    leavesCO (.node "AND" false []) = [] :=
  ⟨by rfl, by decide, rfl, rfl⟩

/-- C7 (amended): on a successful compile, the projection is dropped to
full-entity fetch exactly when a candidate column has store type bytes/text,
or the model has inheritance ancestors, or the candidate column set is empty
(e.g. keys-only or all-fields queries), or some leaf filters a candidate
column with `exact`/`in`/`isnull`; otherwise the projection is the
deduplicated candidate columns — so removing the offending equality filter
restores exactly that column set. -/
theorem C7_projection_drop (m : Model) (ko af : Bool) (sel : List String)
    (dord : Bool) (ob : List String) (tree : WhereNode) (cmd : SelectCommand)
    (_hwf : ∀ f ∈ candidateCols m af (computeQueriedFields m ko af sel),
      (get_field_from_column m f).isSome = true)
    (h : initSelect m ko af sel dord ob tree = .ok cmd) :
    (cmd.projection = none ↔
      ((∃ f ∈ candidateCols m af (computeQueriedFields m ko af sel),
          dbTypeOf m f = "bytes" ∨ dbTypeOf m f = "text") ∨
        m.parents ≠ [] ∨
        candidateCols m af (computeQueriedFields m ko af sel) = [] ∨
        ∃ co ∈ leavesCO tree,
          co.1 ∈ candidateCols m af (computeQueriedFields m ko af sel) ∧
          co.2 ∈ (["exact", "in", "isnull"] : List String))) ∧
    (¬((∃ f ∈ candidateCols m af (computeQueriedFields m ko af sel),
          dbTypeOf m f = "bytes" ∨ dbTypeOf m f = "text") ∨
        m.parents ≠ [] ∨
        candidateCols m af (computeQueriedFields m ko af sel) = [] ∨
        ∃ co ∈ leavesCO tree,
          co.1 ∈ candidateCols m af (computeQueriedFields m ko af sel) ∧
          co.2 ∈ (["exact", "in", "isnull"] : List String)) →
      cmd.projection
        = some (candidateCols m af (computeQueriedFields m ko af sel)).dedup) := by
  obtain ⟨st, preds, hp, -, -, hproj, -, -, -, -, -, -⟩ :=
    initSelect_ok m ko af sel dord ob tree cmd h
  have hp1 : (parseWhere (initState m af (computeQueriedFields m ko af sel))
      false tree).1 = st := by rw [hp]
  have hp2 : (parseWhere (initState m af (computeQueriedFields m ko af sel))
      false tree).2 = .ok preds := by rw [hp]
  have hinit : (initState m af (computeQueriedFields m ko af sel)).projection
      = initialProjection m af (computeQueriedFields m ko af sel) := rfl
  have hinv := parseInv_all tree
    (initState m af (computeQueriedFields m ko af sel)) false
  rw [hp1, hp2, hinit] at hinv
  cases hP0 : initialProjection m af (computeQueriedFields m ko af sel) with
  | none =>
    rw [hP0] at hinv
    have hABD := (initialProjection_none_iff m af
      (computeQueriedFields m ko af sel)).1 hP0
    have hRHS : (∃ f ∈ candidateCols m af (computeQueriedFields m ko af sel),
        dbTypeOf m f = "bytes" ∨ dbTypeOf m f = "text") ∨
        m.parents ≠ [] ∨
        candidateCols m af (computeQueriedFields m ko af sel) = [] ∨
        ∃ co ∈ leavesCO tree,
          co.1 ∈ candidateCols m af (computeQueriedFields m ko af sel) ∧
          co.2 ∈ (["exact", "in", "isnull"] : List String) := by
      rcases hABD with hA | hB | hD
      · exact Or.inl hA
      · exact Or.inr (Or.inl hB)
      · exact Or.inr (Or.inr (Or.inl hD))
    have hstnone : st.projection = none := by
      rcases hinv.1 with h1 | h1 <;> exact h1
    exact ⟨iff_of_true (hproj.trans hstnone) hRHS, fun hn => absurd hRHS hn⟩
  | some l =>
    rw [hP0] at hinv
    obtain ⟨hl, hcne⟩ := initialProjection_some m af
      (computeQueriedFields m ko af sel) l hP0
    have hnABD : ¬((∃ f ∈ candidateCols m af (computeQueriedFields m ko af sel),
        dbTypeOf m f = "bytes" ∨ dbTypeOf m f = "text") ∨
        m.parents ≠ [] ∨
        candidateCols m af (computeQueriedFields m ko af sel) = []) := by
      intro hh
      have hcontra := (initialProjection_none_iff m af
        (computeQueriedFields m ko af sel)).2 hh
      rw [hP0] at hcontra
      exact absurd hcontra (by simp)
    have hlisE : l.isEmpty = false := by
      rw [hl]
      cases hcc : (candidateCols m af (computeQueriedFields m ko af sel)).dedup with
      | nil => exact absurd ((List.dedup_eq_nil _).1 hcc) hcne
      | cons a as => rfl
    have hdropIff : ∀ c op : String, dropCond (some l) c op ↔
        (c ∈ candidateCols m af (computeQueriedFields m ko af sel) ∧
          op ∈ (["exact", "in", "isnull"] : List String)) := by
      intro c op
      unfold dropCond
      constructor
      · rintro ⟨-, h1, h2⟩
        refine ⟨?_, h2⟩
        rw [hl] at h1
        exact List.mem_dedup.1 (by simpa using h1)
      · rintro ⟨h1, h2⟩
        refine ⟨?_, ?_, h2⟩
        · simp [projTruthy, hlisE]
        · rw [hl]
          simpa using List.mem_dedup.2 h1
    have hfwd : cmd.projection = none →
        ∃ co ∈ leavesCO tree,
          co.1 ∈ candidateCols m af (computeQueriedFields m ko af sel) ∧
          co.2 ∈ (["exact", "in", "isnull"] : List String) := by
      intro hnone
      have hstnone : st.projection = none := by
        rw [hproj] at hnone
        exact hnone
      rcases hinv.2.1 hstnone with habs | ⟨co, hco, hd⟩
      · exact absurd habs (by simp)
      · exact ⟨co, hco, (hdropIff co.1 co.2).1 hd⟩
    have hiff : cmd.projection = none ↔
        ((∃ f ∈ candidateCols m af (computeQueriedFields m ko af sel),
            dbTypeOf m f = "bytes" ∨ dbTypeOf m f = "text") ∨
          m.parents ≠ [] ∨
          candidateCols m af (computeQueriedFields m ko af sel) = [] ∨
          ∃ co ∈ leavesCO tree,
            co.1 ∈ candidateCols m af (computeQueriedFields m ko af sel) ∧
            co.2 ∈ (["exact", "in", "isnull"] : List String)) := by
      constructor
      · intro hnone
        exact Or.inr (Or.inr (Or.inr (hfwd hnone)))
      · intro hrhs
        rcases hrhs with hA | hB | hD | ⟨co, hco, hc1, hc2⟩
        · exact absurd (Or.inl hA) hnABD
        · exact absurd (Or.inr (Or.inl hB)) hnABD
        · exact absurd (Or.inr (Or.inr hD)) hnABD
        · have hstnone := hinv.2.2.1 preds rfl co hco
            ((hdropIff co.1 co.2).2 ⟨hc1, hc2⟩)
          exact hproj.trans hstnone
    refine ⟨hiff, ?_⟩
    intro hn
    have hne : cmd.projection ≠ none := fun hno => hn (hiff.1 hno)
    rcases hinv.1 with h1 | h1
    · rw [hproj, h1, hl]
    · exact absurd (hproj.trans h1) hne

/-- Witness for C7: on `User`, selecting email and name with an equality
filter on email drops the projection; the same selection with the filter
removed projects exactly the deduplicated candidate columns. -/
theorem C7_witness :
    (okOr (initSelect mUser false false ["email", "name"] false []
        (.node "AND" false [.leaf "email" false "exact" (.strV "x")])) dCmd
      ).projection = none ∧
    (okOr (initSelect mUser false false ["email", "name"] false []
        (.node "AND" false [])) dCmd).projection
      = some (candidateCols mUser false
          (computeQueriedFields mUser false false ["email", "name"])).dedup := by
  have h1 : initSelect mUser false false ["email", "name"] false []
      (.node "AND" false [.leaf "email" false "exact" (.strV "x")])
      = .ok (okOr (initSelect mUser false false ["email", "name"] false []
          (.node "AND" false [.leaf "email" false "exact" (.strV "x")])) dCmd) := by
    rfl
  have h2 : initSelect mUser false false ["email", "name"] false []
      (.node "AND" false [])
      = .ok (okOr (initSelect mUser false false ["email", "name"] false []
          (.node "AND" false [])) dCmd) := by rfl
  constructor
  · exact (C7_projection_drop mUser false false ["email", "name"] false [] _ _
      (by decide) h1).1.mpr (Or.inr (Or.inr (Or.inr (by decide))))
  · exact (C7_projection_drop mUser false false ["email", "name"] false [] _ _
      (by decide) h2).2 (by decide)

end Djangae
